import Mathlib

-- Verification of the bintje sparse tile-based rasterizer core.
-- Shallow embedding of src/bintje/src/{lib,strip,wide_tile}.rs (and, where the
-- tiler itself is absent from the sources, definitions modelled from the spec).
--
-- Machine integers are embedded as Nat with explicit reduction modulo 2^w at the
-- places where the Rust code performs wrapping or truncating conversions.
-- f32 arithmetic in the striper is idealized as exact rational arithmetic; the
-- claims proved about the striper concern only its control flow and buffer
-- bookkeeping, which do not depend on the numeric values.

namespace Bintje

-- ## Colors and integer blending (src/bintje/src/wide_tile.rs)

-- Premultiplied RGBA8 color (peniko::color::PremulRgba8); each component is a u8.
structure PremulRgba8 where
  r : Nat
  g : Nat
  b : Nat
  a : Nat
deriving DecidableEq

-- Validity of a premultiplied RGBA8 color: each color channel is at most the
-- alpha channel, and all components fit in a byte.
def PremulRgba8.Valid (c : PremulRgba8) : Prop :=
  c.r ≤ c.a ∧ c.g ≤ c.a ∧ c.b ≤ c.a ∧ c.a ≤ 255

instance (c : PremulRgba8) : Decidable c.Valid :=
  inferInstanceAs (Decidable (c.r ≤ c.a ∧ c.g ≤ c.a ∧ c.b ≤ c.a ∧ c.a ≤ 255))

-- One channel of the integer source-over blend of `fn over` (wide_tile.rs,
-- COMPOSITE_IN_F32 = false path):
--   under[idx] = ((over[idx] as u16 * 255 + under[idx] as u16 * (255 - over[3]) as u16) / 255) as u8
-- The u16 sum wraps modulo 2^16 on overflow (release semantics) and the final
-- `as u8` cast truncates modulo 2^8.
def overChannel (u o oa : Nat) : Nat :=
  (o * 255 + u * (255 - oa)) % 65536 / 255 % 256

-- Integer source-over compositing of `o` over `u` (wide_tile.rs `fn over`).
-- The alpha channel uses the same formula with the channel being the alpha itself.
def over (u o : PremulRgba8) : PremulRgba8 :=
  { r := overChannel u.r o.r o.a
    g := overChannel u.g o.g o.a
    b := overChannel u.b o.b o.a
    a := overChannel u.a o.a o.a }

-- Multiply an alpha value over a color (wide_tile.rs `fn mul_alpha`,
-- COMPOSITE_IN_F32 = false path): each component becomes
--   ((component as u16 * alpha as u16) / 255) as u8
def mulAlphaChannel (c alpha : Nat) : Nat :=
  c * alpha % 65536 / 255 % 256

def mul_alpha (color : PremulRgba8) (alpha : Nat) : PremulRgba8 :=
  { r := mulAlphaChannel color.r alpha
    g := mulAlphaChannel color.g alpha
    b := mulAlphaChannel color.b alpha
    a := mulAlphaChannel color.a alpha }

-- Helper lemma: for in-range inputs the wrap and truncation in `overChannel`
-- are inert and the channel value is the exact integer formula.
theorem overChannel_exact (u o oa : Nat) (ho : o ≤ oa) (hoa : oa ≤ 255) (hu : u ≤ 255) :
    overChannel u o oa = (o * 255 + u * (255 - oa)) / 255 := by
  unfold overChannel
  have h1 : u * (255 - oa) ≤ 255 * (255 - oa) := Nat.mul_le_mul_right _ hu
  have h2 : o * 255 ≤ oa * 255 := Nat.mul_le_mul_right _ ho
  have hsum : o * 255 + u * (255 - oa) ≤ 255 * 255 := by
    have : oa * 255 + 255 * (255 - oa) = 255 * 255 := by
      have : 255 - oa + oa = 255 := by omega
      nlinarith [Nat.sub_add_cancel hoa]
    omega
  have hm : (o * 255 + u * (255 - oa)) % 65536 = o * 255 + u * (255 - oa) :=
    Nat.mod_eq_of_lt (by omega)
  rw [hm]
  have hdiv : (o * 255 + u * (255 - oa)) / 255 < 256 := by
    apply Nat.div_lt_of_lt_mul
    omega
  exact Nat.mod_eq_of_lt hdiv

/-- C7: The integer source-over blend used by the CPU fine rasterizer computes, for every
channel, under = (over·255 + under·(255 − over.a)) / 255 in exact integer arithmetic,
for each pair of valid premultiplied RGBA8 inputs. -/
theorem C7_integer_over_blend_exact (u o : PremulRgba8) (hu : u.Valid) (ho : o.Valid) :
    over u o =
      { r := (o.r * 255 + u.r * (255 - o.a)) / 255
        g := (o.g * 255 + u.g * (255 - o.a)) / 255
        b := (o.b * 255 + u.b * (255 - o.a)) / 255
        a := (o.a * 255 + u.a * (255 - o.a)) / 255 } := by
  obtain ⟨hur, hug, hub, hua⟩ := hu
  obtain ⟨hor, hog, hob, hoa⟩ := ho
  unfold over
  congr 1
  · exact overChannel_exact u.r o.r o.a hor hoa (le_trans hur hua)
  · exact overChannel_exact u.g o.g o.a hog hoa (le_trans hug hua)
  · exact overChannel_exact u.b o.b o.a hob hoa (le_trans hub hua)
  · exact overChannel_exact u.a o.a o.a le_rfl hoa hua

/-- Witness for C7 at a concrete pair of valid premultiplied colors. -/
theorem C7_integer_over_blend_exact_witness :
    over ⟨10, 20, 30, 200⟩ ⟨5, 6, 7, 100⟩ =
      { r := (5 * 255 + 10 * (255 - 100)) / 255
        g := (6 * 255 + 20 * (255 - 100)) / 255
        b := (7 * 255 + 30 * (255 - 100)) / 255
        a := (100 * 255 + 200 * (255 - 100)) / 255 } :=
  C7_integer_over_blend_exact ⟨10, 20, 30, 200⟩ ⟨5, 6, 7, 100⟩ (by decide) (by decide)

-- ## Wide-tile draw commands (src/bintje/src/wide_tile.rs)

-- Tile constants: Tile::WIDTH = Tile::HEIGHT = 4, WIDE_TILE_WIDTH_TILES = 32,
-- WIDE_TILE_WIDTH_PX = 128. These appear as literals below, as in the source.

structure Sample where
  x : Nat
  width : Nat
  color : PremulRgba8
  alpha_idx : Nat
deriving DecidableEq

structure SparseSample where
  x : Nat
  width : Nat
  color : PremulRgba8
  alpha_mask : List Nat
deriving DecidableEq

structure SparseFill where
  x : Nat
  width : Nat
  color : PremulRgba8
deriving DecidableEq

inductive Command where
  | sample : Sample → Command
  | sparseSample : SparseSample → Command
  | sparseFill : SparseFill → Command
  | pushClip : Command
  | popClip : Command
deriving DecidableEq

def transparent : PremulRgba8 := ⟨0, 0, 0, 0⟩

-- ## CPU fine rasterizer (src/bintje/src/wide_tile.rs, cpu_rasterize)

-- The 128×4-pixel scratch buffer is a list of 512 colors; writes out of range
-- are no-ops of List.set, which the in-range command layout never hits.

-- Execution of a SparseFill command on the scratch buffer (cpu_rasterize,
-- Command::SparseFill arm): opaque colors take the memset shortcut, others are
-- composited pixel by pixel.
def execSparseFill (sf : SparseFill) (scratch : List PremulRgba8) : List PremulRgba8 :=
  (List.range 4).foldl
    (fun sc y =>
      let base := y * 128 + sf.x * 4
      if sf.color.a = 255 then
        (List.range (sf.width * 4)).foldl (fun sc x => sc.set (base + x) sf.color) sc
      else
        (List.range (sf.width * 4)).foldl
          (fun sc x => sc.set (base + x) (over (sc.getD (base + x) transparent) sf.color)) sc)
    scratch

-- Reference version of the SparseFill arm that always composites per pixel with
-- the integer source-over blend and never takes the memset shortcut. This is the
-- refinement reference the shortcut is compared against.
def execSparseFillComposite (sf : SparseFill) (scratch : List PremulRgba8) : List PremulRgba8 :=
  (List.range 4).foldl
    (fun sc y =>
      let base := y * 128 + sf.x * 4
      (List.range (sf.width * 4)).foldl
        (fun sc x => sc.set (base + x) (over (sc.getD (base + x) transparent) sf.color)) sc)
    scratch

-- Execution of one wide-tile command on the scratch buffer.
def execCommand (alpha : List Nat) (scratch : List PremulRgba8) : Command → List PremulRgba8
  | .sample s =>
    (List.range 4).foldl
      (fun sc y =>
        (List.range (s.width * 4)).foldl
          (fun sc x =>
            let ai := s.alpha_idx + x * 4 + y
            let cc := mul_alpha s.color (alpha.getD ai 0)
            let idx := y * 128 + s.x * 4 + x
            sc.set idx (over (sc.getD idx transparent) cc))
          sc)
      scratch
  | .sparseSample ss =>
    (List.range 4).foldl
      (fun sc y =>
        let cc := mul_alpha ss.color (ss.alpha_mask.getD y 0)
        (List.range (ss.width * 4)).foldl
          (fun sc x =>
            let idx := y * 128 + ss.x * 4 + x
            sc.set idx (over (sc.getD idx transparent) cc))
          sc)
      scratch
  | .sparseFill sf => execSparseFill sf scratch
  | _ => scratch

-- Copy one scratch sub-row into the destination image (the tail of the wide-tile
-- loop in cpu_rasterize). The source `break` on `img_y >= height` and
-- `img_x >= width` is embedded as skipping, which is equivalent since the
-- escaped indices increase monotonically.
def copyScratchRow (width height cols wide_tile_x wide_tile_y y : Nat)
    (scratch img : List PremulRgba8) : List PremulRgba8 :=
  let img_y := wide_tile_y * 4 + y
  if img_y < height then
    if wide_tile_x + 1 < cols then
      (List.range 128).foldl
        (fun im x =>
          im.set (img_y * width + wide_tile_x * 128 + x) (scratch.getD (y * 128 + x) transparent))
        img
    else
      (List.range 128).foldl
        (fun im x =>
          if wide_tile_x * 128 + x < width then
            im.set (img_y * width + wide_tile_x * 128 + x) (scratch.getD (y * 128 + x) transparent)
          else im)
        img
  else img

-- Render one wide tile: run its command list on a fresh transparent scratch
-- buffer, then copy the scratch into the image with right/bottom clipping.
def renderWideTile (width height cols : Nat) (alpha : List Nat)
    (wide_tile : List Command) (wide_tile_x wide_tile_y : Nat)
    (img : List PremulRgba8) : List PremulRgba8 :=
  let scratch := wide_tile.foldl (execCommand alpha) (List.replicate 512 transparent)
  (List.range 4).foldl
    (fun im y => copyScratchRow width height cols wide_tile_x wide_tile_y y scratch im)
    img

-- cpu_rasterize (wide_tile.rs). The source asserts that the image buffer has
-- exactly width·height pixels and that the wide-tile slice has exactly
-- ceil(width/128)·ceil(height/4) entries before touching any pixel; the panic
-- is embedded as returning none.
def cpu_rasterize (width height : Nat) (img : List PremulRgba8) (alpha : List Nat)
    (wide_tiles : List (List Command)) : Option (List PremulRgba8) :=
  if img.length = width * height ∧
      wide_tiles.length = (width + 127) / 128 * ((height + 3) / 4) then
    let rows := (height + 3) / 4
    let cols := (width + 127) / 128
    some ((List.range rows).foldl
      (fun im wide_tile_y =>
        (List.range cols).foldl
          (fun im wide_tile_x =>
            let wide_tile := wide_tiles.getD (wide_tile_y * cols + wide_tile_x) []
            renderWideTile width height cols alpha wide_tile wide_tile_x wide_tile_y im)
          im)
      img)
  else none

/-- C8: cpu_rasterize fails fast with a precondition violation before writing any pixel
whenever the output buffer length differs from width·height or the wide-tile slice length
differs from ceil(width/128)·ceil(height/4); it never produces partial output. -/
theorem C8_cpu_rasterize_precondition (width height : Nat) (img : List PremulRgba8)
    (alpha : List Nat) (wide_tiles : List (List Command))
    (h : img.length ≠ width * height ∨
      wide_tiles.length ≠ (width + 127) / 128 * ((height + 3) / 4)) :
    cpu_rasterize width height img alpha wide_tiles = none := by
  rw [cpu_rasterize, if_neg]
  tauto

/-- Witness for C8: a mis-sized (empty) output buffer for a 1×1 canvas is rejected. -/
theorem C8_cpu_rasterize_precondition_witness :
    cpu_rasterize 1 1 [] [] [[]] = none :=
  C8_cpu_rasterize_precondition 1 1 [] [] [[]] (Or.inl (by decide))

-- Helper: the integer blend leaves an opaque source color unchanged.
theorem over_alpha255 (u c : PremulRgba8) (hv : c.Valid) (h : c.a = 255) : over u c = c := by
  obtain ⟨hr, hg, hb, _⟩ := hv
  have hch : ∀ x y : Nat, y ≤ 255 → overChannel x y 255 = y := by
    intro x y hy
    unfold overChannel
    have h1 : y * 255 + x * (255 - 255) = y * 255 := by norm_num
    rw [h1, Nat.mod_eq_of_lt (show y * 255 < 65536 by omega)]
    omega
  obtain ⟨cr, cg, cb, ca⟩ := c
  obtain rfl : ca = 255 := h
  simp only [over, PremulRgba8.mk.injEq]
  exact ⟨hch _ _ hr, hch _ _ hg, hch _ _ hb, hch _ _ (by omega)⟩

/-- C10: for every destination pixel d and premultiplied RGBA8 color c with c.a = 255 the
integer blend satisfies over(d, c) = c, and consequently the SparseFill memset shortcut of
cpu_rasterize yields exactly the same scratch-buffer contents as per-pixel source-over
compositing of the same span. -/
theorem C10_opaque_memset_refines_composite :
    (∀ u c : PremulRgba8, c.Valid → c.a = 255 → over u c = c) ∧
    (∀ (sf : SparseFill) (scratch : List PremulRgba8), sf.color.Valid → sf.color.a = 255 →
      execSparseFill sf scratch = execSparseFillComposite sf scratch) := by
  constructor
  · exact fun u c hv h => over_alpha255 u c hv h
  · intro sf scratch hv h255
    unfold execSparseFill execSparseFillComposite
    apply List.foldl_ext
    intro acc y _
    simp only [h255, if_pos]
    apply List.foldl_ext
    intro acc2 x _
    rw [over_alpha255 _ _ hv h255]

/-- Witness for C10 at a concrete opaque color, destination pixel and span. -/
theorem C10_opaque_memset_refines_composite_witness :
    over ⟨1, 2, 3, 4⟩ ⟨9, 8, 7, 255⟩ = ⟨9, 8, 7, 255⟩ ∧
    execSparseFill ⟨0, 1, ⟨9, 8, 7, 255⟩⟩ (List.replicate 512 transparent) =
      execSparseFillComposite ⟨0, 1, ⟨9, 8, 7, 255⟩⟩ (List.replicate 512 transparent) :=
  ⟨C10_opaque_memset_refines_composite.1 ⟨1, 2, 3, 4⟩ ⟨9, 8, 7, 255⟩ (by decide) rfl,
   C10_opaque_memset_refines_composite.2 ⟨0, 1, ⟨9, 8, 7, 255⟩⟩ (List.replicate 512 transparent)
     (by decide) rfl⟩

-- ## Geometry types (src/bintje/src/point.rs, line.rs)

-- Coordinates are f32 in the source; they are idealized as exact rationals here.
structure Point where
  x : ℚ
  y : ℚ
deriving DecidableEq

structure Line where
  p0 : Point
  p1 : Point
deriving DecidableEq

-- ## Tiles and tile rows
--
-- The tile type consumed by strip generation carries the tile column and the
-- index of the originating line, as used throughout src/bintje/src/strip.rs
-- (the defining tile.rs of this revision is not among the sources; the shape is
-- fixed by its uses in strip.rs and by the data model of the spec).
structure Tile where
  x : Nat
  line_idx : Nat
deriving DecidableEq

-- One tile row: its tiles (sorted by x before strip generation), plus the
-- accumulated left-of-viewport winding and per-sub-row area coverage.
structure TileRow where
  tiles : List Tile
  winding : Int
  area_coverage : List ℚ
deriving DecidableEq

-- ## Strips (src/bintje/src/strip.rs)

structure Strip where
  x : Nat
  y : Nat
  width : Nat
  pixel_coverage : List Nat
  alpha_idx : Nat
deriving DecidableEq

-- f32::signum idealized on ℚ: the source value is ±1.0 (f32 signum never
-- returns 0; a zero argument takes the sign of its zero, and a − a = +0.0).
def signumQ (q : ℚ) : ℚ := if 0 ≤ q then 1 else -1

-- Coverage-to-byte conversion `(coverage.abs() * 255.0).round() as u8`; the
-- float-to-int `as` cast saturates, and the value is nonnegative.
def covByte (c : ℚ) : Nat := min 255 (round (|c| * 255)).toNat

-- Read and write one cell of the 4×4 location_winding matrix (indexed
-- column-first as in the source: location_winding[x][y]).
def get2 (m : List (List ℚ)) (x y : Nat) : ℚ := (m.getD x []).getD y 0

def set2 (m : List (List ℚ)) (x y : Nat) (v : ℚ) : List (List ℚ) :=
  m.set x ((m.getD x []).set y v)

-- Loop state of generate_strips.
structure StripState where
  winding_delta : Int
  prev_tile : Tile
  location_winding : List (List ℚ)
  accumulated_winding : List ℚ
  strip : Strip
  alpha : List Nat
  strips : List Strip
deriving DecidableEq

-- Flush the current tile column into the alpha-mask pool and reset each column
-- of location_winding to accumulated_winding (strip.rs, the `prev_tile.x < tile.x`
-- block): for x in 0..4 push the four coverage bytes of column x, then splat.
def flushColumn (st : StripState) : StripState :=
  (List.range 4).foldl
    (fun st x =>
      { st with
        alpha := st.alpha ++ (List.range 4).map (fun y => covByte (get2 st.location_winding x y))
        location_winding := st.location_winding.set x st.accumulated_winding })
    st

-- Per-tile analytic area integration (strip.rs, the body from `let tile_left_x`
-- to the end of the loop). Field division on ℚ idealizes f32: for a vertical
-- segment the source produces ±inf slopes whose min/max clamping degenerates to
-- ymin/ymax, while ℚ division by zero produces 0; this affects only the numeric
-- coverage values, never the control flow or buffer shapes.
def integrateTile (lines : List Line) (row_top_y : ℚ) (tile : Tile)
    (locw : List (List ℚ)) (accw : List ℚ) (wd : Int) :
    List (List ℚ) × List ℚ × Int :=
  let tile_left_x : ℚ := (tile.x : ℚ) * 4
  let line := lines.getD tile.line_idx ⟨⟨0, 0⟩, ⟨0, 0⟩⟩
  let p0_x := line.p0.x - tile_left_x
  let p0_y := line.p0.y - row_top_y
  let p1_x := line.p1.x - tile_left_x
  let p1_y := line.p1.y - row_top_y
  let sign := signumQ (p0_y - p1_y)
  let signI : Int := if 0 ≤ p0_y - p1_y then 1 else -1
  let ltb := if p0_y < p1_y then (p0_y, p0_x, p1_y, p1_x) else (p1_y, p1_x, p0_y, p0_x)
  let line_top_y := ltb.1
  let line_top_x := ltb.2.1
  let line_bottom_y := ltb.2.2.1
  let line_bottom_x := ltb.2.2.2
  let y_slope := (line_bottom_y - line_top_y) / (line_bottom_x - line_top_x)
  let x_slope := 1 / y_slope
  let line_tile_left_y := min (max (line_top_y - line_top_x * y_slope) line_top_y) line_bottom_y
  let line_tile_right_y :=
    min (max (line_top_y + (4 - line_top_x) * y_slope) line_top_y) line_bottom_y
  let wd := wd + signI * (if signumQ line_tile_left_y ≠ signumQ line_tile_right_y then 1 else 0)
  let step :=
    (List.range 4).foldl
      (fun (s : List (List ℚ) × List ℚ) (y_idx : Nat) =>
        let px_top_y : ℚ := (y_idx : ℚ)
        let px_bottom_y : ℚ := 1 + (y_idx : ℚ)
        let ymin := max line_top_y px_top_y
        let ymax := min line_bottom_y px_bottom_y
        let inner :=
          (List.range 4).foldl
            (fun (t : List (List ℚ) × ℚ) (x_idx : Nat) =>
              let px_right_x : ℚ := 1 + (x_idx : ℚ)
              let px_left_x : ℚ := (x_idx : ℚ)
              let line_px_left_y :=
                min (max (line_top_y + (px_left_x - line_top_x) * y_slope) ymin) ymax
              let line_px_right_y :=
                min (max (line_top_y + (px_right_x - line_top_x) * y_slope) ymin) ymax
              let line_px_left_yx := line_top_x + (line_px_left_y - line_top_y) * x_slope
              let line_px_right_yx := line_top_x + (line_px_right_y - line_top_y) * x_slope
              let h := |line_px_right_y - line_px_left_y|
              let area :=
                1 / 2 * h * ((px_right_x - line_px_right_yx) + (px_right_x - line_px_left_yx))
              (set2 t.1 x_idx y_idx (get2 t.1 x_idx y_idx + (t.2 + sign * area)),
               t.2 + sign * h))
            (s.1, (0 : ℚ))
        (inner.1, s.2.set y_idx (s.2.getD y_idx 0 + inner.2)))
      (locw, accw)
  (step.1, step.2, wd)

-- The sentinel tile closing the final strip (strip.rs GATE_CLOSER).
def gateCloser : Tile := { x := 65535, line_idx := 0 }

-- One iteration of the strip-generation loop over an incoming tile. Returns the
-- updated state and whether the loop breaks (sentinel reached after closing the
-- final strip). `alpha_idx` is a u32 in the source, set from
-- `alpha_storage.len() as u32`, hence the reduction modulo 2^32.
def stripStep (lines : List Line) (row_y : Nat) (st : StripState) (t : Tile) :
    StripState × Bool :=
  let st := if st.prev_tile.x < t.x then flushColumn st else st
  let stStop : StripState × Bool :=
    if st.prev_tile.x + 1 < t.x then
      let closed := { st.strip with width := st.prev_tile.x - st.strip.x + 1 }
      ({ st with
          strips := st.strips ++ [closed]
          strip :=
            { x := t.x, y := row_y, width := 0
              pixel_coverage := st.accumulated_winding.map covByte
              alpha_idx := st.alpha.length % 4294967296 } },
       t.x = 65535)
    else (st, false)
  let st := stStop.1
  if stStop.2 then (st, true)
  else
    let st := { st with prev_tile := t }
    let lw_aw_wd :=
      integrateTile lines ((row_y * 4 : Nat) : ℚ) t
        st.location_winding st.accumulated_winding st.winding_delta
    ({ st with
        location_winding := lw_aw_wd.1
        accumulated_winding := lw_aw_wd.2.1
        winding_delta := lw_aw_wd.2.2 },
     false)

-- The loop of generate_strips over the row's tiles chained with the sentinel.
def stripGo (lines : List Line) (row_y : Nat) : List Tile → StripState → StripState
  | [], st => st
  | t :: ts, st =>
    let r := stripStep lines row_y st t
    if r.2 then r.1 else stripGo lines row_y ts r.1

-- generate_strips (strip.rs): returns the extended alpha-mask pool and strip list.
def generate_strips (row : TileRow) (row_y : Nat) (lines : List Line)
    (alpha_storage : List Nat) (strips : List Strip) : List Nat × List Strip :=
  if lines.isEmpty then (alpha_storage, strips)
  else
    match row.tiles with
    | [] => (alpha_storage, strips)
    | t0 :: _ =>
      let st0 : StripState :=
        { winding_delta := row.winding
          prev_tile := t0
          location_winding := List.replicate 4 row.area_coverage
          accumulated_winding := row.area_coverage
          strip :=
            { x := t0.x, y := row_y, width := 0
              pixel_coverage := row.area_coverage.map covByte
              alpha_idx := alpha_storage.length % 4294967296 }
          alpha := alpha_storage
          strips := strips }
      let stf := stripGo lines row_y (row.tiles ++ [gateCloser]) st0
      (stf.alpha, stf.strips)

-- The strip stage of the pipeline (lib.rs, Bintje::strip): run generate_strips
-- on every tile row in increasing row order.
def stripRowsGo (lines : List Line) : List TileRow → Nat → List Nat × List Strip →
    List Nat × List Strip
  | [], _, acc => acc
  | r :: rs, y, acc => stripRowsGo lines rs (y + 1) (generate_strips r y lines acc.1 acc.2)

def stripRows (lines : List Line) (rows : List TileRow) (alpha_storage : List Nat) :
    List Nat × List Strip :=
  stripRowsGo lines rows 0 (alpha_storage, [])

-- ## Ordering and contiguity predicates for strips

-- Tiles sorted ascending by x (ties allowed), the precondition documented on
-- generate_strips.
def tileLe (t1 t2 : Tile) : Prop := t1.x ≤ t2.x

instance : DecidableRel tileLe := fun t1 t2 => inferInstanceAs (Decidable (t1.x ≤ t2.x))

-- Strip emission order: strictly later rows, or the same row with the interval
-- [x, x+width) disjoint from and separated by at least one tile column from the
-- earlier strip.
def stripOrder (s1 s2 : Strip) : Prop :=
  s1.y < s2.y ∨ (s1.y = s2.y ∧ s1.x + s1.width + 1 ≤ s2.x)

instance : DecidableRel stripOrder :=
  fun s1 s2 => inferInstanceAs (Decidable (s1.y < s2.y ∨ (s1.y = s2.y ∧ s1.x + s1.width + 1 ≤ s2.x)))

-- Alpha-pool contiguity of consecutive strips: the later strip starts exactly
-- width·TW·TH = width·16 bytes after the earlier one.
def alphaChain (s1 s2 : Strip) : Prop := s2.alpha_idx = s1.alpha_idx + s1.width * 16

instance : DecidableRel alphaChain :=
  fun s1 s2 => inferInstanceAs (Decidable (s2.alpha_idx = s1.alpha_idx + s1.width * 16))

-- Projections of flushColumn: it only appends 16 bytes to the alpha pool and
-- rewrites location_winding.
theorem flushColumn_fields (st : StripState) :
    (flushColumn st).strip = st.strip ∧ (flushColumn st).strips = st.strips ∧
    (flushColumn st).prev_tile = st.prev_tile ∧
    (flushColumn st).alpha.length = st.alpha.length + 16 ∧
    (flushColumn st).accumulated_winding = st.accumulated_winding := by
  have h4 : List.range 4 = [0, 1, 2, 3] := rfl
  simp [flushColumn, h4]

-- Behaviour of one loop iteration on a non-sentinel tile at or right of the
-- previous tile: the loop never breaks, and the strip/alpha bookkeeping evolves
-- as described; the numeric integration touches none of these fields.
theorem stripStep_spec (lines : List Line) (row_y : Nat) (st : StripState) (t : Tile)
    (hng : t.x ≠ 65535) :
    (stripStep lines row_y st t).2 = false ∧
    (stripStep lines row_y st t).1.prev_tile = t ∧
    (if st.prev_tile.x + 1 < t.x then
      (stripStep lines row_y st t).1.strips =
        st.strips ++ [{ st.strip with width := st.prev_tile.x - st.strip.x + 1 }] ∧
      (stripStep lines row_y st t).1.strip =
        { x := t.x, y := row_y, width := 0
          pixel_coverage := st.accumulated_winding.map covByte
          alpha_idx := (st.alpha.length + 16) % 4294967296 } ∧
      (stripStep lines row_y st t).1.alpha.length = st.alpha.length + 16
    else
      (stripStep lines row_y st t).1.strips = st.strips ∧
      (stripStep lines row_y st t).1.strip = st.strip ∧
      (stripStep lines row_y st t).1.alpha.length =
        st.alpha.length + (if st.prev_tile.x < t.x then 16 else 0)) := by
  obtain ⟨hf1, hf2, hf3, hf4, hf5⟩ := flushColumn_fields st
  unfold stripStep
  by_cases hlt : st.prev_tile.x < t.x
  · simp only [if_pos hlt]
    by_cases hgap : st.prev_tile.x + 1 < t.x
    · have hgap2 : (flushColumn st).prev_tile.x + 1 < t.x := by rw [hf3]; exact hgap
      simp only [if_pos hgap2, hng, if_neg, if_false]
      simp [hf1, hf2, hf3, hf4, hf5, if_pos hgap]
    · have hgap2 : ¬ (flushColumn st).prev_tile.x + 1 < t.x := by rw [hf3]; exact hgap
      simp only [if_neg hgap2]
      simp [hf1, hf2, hf3, hf4, if_neg hgap, if_pos hlt]
  · have hgap : ¬ st.prev_tile.x + 1 < t.x := by omega
    have hgap2 : ¬ st.prev_tile.x + 1 < t.x := hgap
    simp only [if_neg hlt, if_neg hgap]
    simp [if_neg hgap, if_neg hlt]

-- Behaviour of the loop iteration on the sentinel tile when the previous tile
-- sits strictly left of column 65534: the final column is flushed, the in-flight
-- strip is closed and pushed, and the loop breaks.
theorem stripStep_gate (lines : List Line) (row_y : Nat) (st : StripState)
    (hprev : st.prev_tile.x < 65534) :
    (stripStep lines row_y st gateCloser).2 = true ∧
    (stripStep lines row_y st gateCloser).1.strips =
      st.strips ++ [{ st.strip with width := st.prev_tile.x - st.strip.x + 1 }] ∧
    (stripStep lines row_y st gateCloser).1.alpha.length = st.alpha.length + 16 := by
  obtain ⟨hf1, hf2, hf3, hf4, hf5⟩ := flushColumn_fields st
  unfold stripStep
  have h1 : st.prev_tile.x < gateCloser.x := by
    simp only [gateCloser]; omega
  have h2 : (flushColumn st).prev_tile.x + 1 < gateCloser.x := by
    rw [hf3]; simp only [gateCloser]; omega
  simp only [if_pos h1, if_pos h2]
  simp [hf1, hf2, hf3, hf4, gateCloser]

-- Loop invariant of generate_strips, tied to the state after an arbitrary
-- number of iterations on non-sentinel tiles.
def StripInv (row_y : Nat) (st : StripState) : Prop :=
  st.strip.x ≤ st.prev_tile.x ∧
  st.strip.y = row_y ∧
  st.alpha.length = st.strip.alpha_idx + (st.prev_tile.x - st.strip.x) * 16 ∧
  (∀ s ∈ st.strips, s.y < row_y ∨ (s.y = row_y ∧ s.x + s.width + 1 ≤ st.strip.x)) ∧
  List.Pairwise stripOrder st.strips ∧
  List.Chain' alphaChain st.strips ∧
  (∀ s, st.strips.getLast? = some s → s.alpha_idx + s.width * 16 = st.strip.alpha_idx)

-- Invariant carried between tile rows by the strip stage: the strips emitted so
-- far are ordered and alpha-contiguous, belong to earlier rows, and the last
-- one ends exactly at the current end of the alpha pool.
def RowsInv (row_y : Nat) (alpha : List Nat) (strips : List Strip) : Prop :=
  List.Pairwise stripOrder strips ∧
  List.Chain' alphaChain strips ∧
  (∀ s ∈ strips, s.y < row_y) ∧
  (∀ s, strips.getLast? = some s → s.alpha_idx + s.width * 16 = alpha.length)

-- The strip-generation loop preserves the invariant and, at the sentinel,
-- closes the in-flight strip so that the row invariant holds for the next row.
theorem stripGo_inv (lines : List Line) (row_y : Nat) (ts : List Tile) (st : StripState)
    (hsort : List.Chain' tileLe (st.prev_tile :: ts))
    (hbound : ∀ t ∈ ts, t.x < 65534)
    (hprev : st.prev_tile.x < 65534)
    (hlen : st.alpha.length + 16 * ts.length + 16 < 4294967296)
    (hinv : StripInv row_y st) :
    RowsInv (row_y + 1) (stripGo lines row_y (ts ++ [gateCloser]) st).alpha
        (stripGo lines row_y (ts ++ [gateCloser]) st).strips ∧
      (stripGo lines row_y (ts ++ [gateCloser]) st).alpha.length ≤
        st.alpha.length + 16 * ts.length + 16 := by
  induction ts generalizing st with
  | nil =>
    obtain ⟨hi1, hi2, hi3, hi4, hi5, hi6, hi7⟩ := hinv
    obtain ⟨hg1, hg2, hg3⟩ := stripStep_gate lines row_y st hprev
    have hgo : stripGo lines row_y ([] ++ [gateCloser]) st =
        (stripStep lines row_y st gateCloser).1 := by
      simp only [List.nil_append, stripGo, hg1, if_true]
    rw [hgo]
    refine ⟨⟨?_, ?_, ?_, ?_⟩, by omega⟩
    · rw [hg2, List.pairwise_append]
      refine ⟨hi5, by simp, ?_⟩
      intro a ha b hb
      rw [List.mem_singleton] at hb
      subst hb
      rcases hi4 a ha with h | ⟨h1, h2⟩
      · exact Or.inl (by simpa [hi2] using h)
      · exact Or.inr ⟨by simpa [hi2] using h1, by simpa using h2⟩
    · rw [hg2, List.chain'_append]
      refine ⟨hi6, by simp, ?_⟩
      intro x hx y hy
      simp only [List.head?_cons, Option.mem_def, Option.some.injEq] at hy
      subst hy
      show _ = _
      simpa [alphaChain] using (hi7 x hx).symm
    · intro s hs
      rw [hg2, List.mem_append] at hs
      rcases hs with h | h
      · rcases hi4 s h with h1 | ⟨h1, -⟩ <;> omega
      · rw [List.mem_singleton] at h
        subst h
        simp [hi2]
    · intro s hs
      rw [hg2, List.getLast?_concat, Option.some.injEq] at hs
      subst hs
      show st.strip.alpha_idx + (st.prev_tile.x - st.strip.x + 1) * 16 =
        (stripStep lines row_y st gateCloser).1.alpha.length
      rw [hg3]
      omega
  | cons t ts2 ih =>
    obtain ⟨hi1, hi2, hi3, hi4, hi5, hi6, hi7⟩ := hinv
    have hng : t.x ≠ 65535 := by
      have := hbound t (by simp)
      omega
    have hple : st.prev_tile.x ≤ t.x := (List.chain'_cons.mp hsort).1
    obtain ⟨hs1, hs2, hs3⟩ := stripStep_spec lines row_y st t hng
    have hgo : stripGo lines row_y ((t :: ts2) ++ [gateCloser]) st =
        stripGo lines row_y (ts2 ++ [gateCloser]) (stripStep lines row_y st t).1 := by
      simp only [List.cons_append, stripGo, hs1, Bool.false_eq_true, if_false]
      rfl
    rw [hgo]
    set st2 := (stripStep lines row_y st t).1 with hst2
    have halen : st2.alpha.length ≤ st.alpha.length + 16 := by
      by_cases hgap : st.prev_tile.x + 1 < t.x
      · rw [if_pos hgap] at hs3
        omega
      · rw [if_neg hgap] at hs3
        obtain ⟨-, -, h3⟩ := hs3
        split at h3 <;> omega
    have hinv2 : StripInv row_y st2 := by
      by_cases hgap : st.prev_tile.x + 1 < t.x
      · rw [if_pos hgap] at hs3
        obtain ⟨h3a, h3b, h3c⟩ := hs3
        have hmod : (st.alpha.length + 16) % 4294967296 = st.alpha.length + 16 :=
          Nat.mod_eq_of_lt (by omega)
        refine ⟨?_, ?_, ?_, ?_, ?_, ?_, ?_⟩
        · rw [h3b, hs2]
        · rw [h3b]
        · rw [h3c, h3b, hs2, hmod]
          simp
        · intro s hs
          rw [h3a, List.mem_append] at hs
          rcases hs with h | h
          · rcases hi4 s h with h | ⟨h1, h2⟩
            · exact Or.inl h
            · refine Or.inr ⟨h1, ?_⟩
              rw [h3b]
              simp only
              omega
          · rw [List.mem_singleton] at h
            subst h
            refine Or.inr ⟨by simpa using hi2, ?_⟩
            rw [h3b]
            simp only
            omega
        · rw [h3a, List.pairwise_append]
          refine ⟨hi5, by simp, ?_⟩
          intro a ha b hb
          rw [List.mem_singleton] at hb
          subst hb
          rcases hi4 a ha with h | ⟨h1, h2⟩
          · exact Or.inl (by simpa [hi2] using h)
          · exact Or.inr ⟨by simpa [hi2] using h1, by simpa using h2⟩
        · rw [h3a, List.chain'_append]
          refine ⟨hi6, by simp, ?_⟩
          intro x hx y hy
          simp only [List.head?_cons, Option.mem_def, Option.some.injEq] at hy
          subst hy
          simpa [alphaChain] using (hi7 x hx).symm
        · intro s hs
          rw [h3a, List.getLast?_concat, Option.some.injEq] at hs
          subst hs
          rw [h3b]
          simp only [hmod]
          omega
      · rw [if_neg hgap] at hs3
        obtain ⟨h3a, h3b, h3c⟩ := hs3
        refine ⟨?_, ?_, ?_, ?_, ?_, ?_, ?_⟩
        · rw [h3b, hs2]
          omega
        · rw [h3b]
          exact hi2
        · rw [h3c, h3b, hs2]
          split <;> omega
        · rw [h3a, h3b]
          exact hi4
        · rw [h3a]
          exact hi5
        · rw [h3a]
          exact hi6
        · rw [h3a, h3b]
          exact hi7
    have hres := ih st2
      (by
        rw [hs2]
        exact (List.chain'_cons.mp hsort).2)
      (fun t2 ht2 => hbound t2 (by simp [ht2]))
      (by rw [hs2]; exact hbound t (by simp))
      (by simp only [List.length_cons] at hlen; omega)
      hinv2
    refine ⟨hres.1, ?_⟩
    have := hres.2
    simp only [List.length_cons]
    omega

-- One full generate_strips call preserves the between-rows invariant and grows
-- the alpha pool by at most 16 bytes per tile plus 16 for the sentinel flush.
theorem generate_strips_inv (row : TileRow) (row_y : Nat) (lines : List Line)
    (alpha : List Nat) (strips : List Strip)
    (hsort : List.Chain' tileLe row.tiles)
    (hbound : ∀ t ∈ row.tiles, t.x < 65534)
    (hlen : alpha.length + 16 * (row.tiles.length + 1) < 4294967296)
    (hinv : RowsInv row_y alpha strips) :
    RowsInv (row_y + 1) (generate_strips row row_y lines alpha strips).1
        (generate_strips row row_y lines alpha strips).2 ∧
      (generate_strips row row_y lines alpha strips).1.length ≤
        alpha.length + 16 * (row.tiles.length + 1) := by
  obtain ⟨hp, hc, hy, hl⟩ := hinv
  by_cases hle : lines.isEmpty = true
  · have hgoal : generate_strips row row_y lines alpha strips = (alpha, strips) := by
      unfold generate_strips
      rw [if_pos hle]
    rw [hgoal]
    refine ⟨⟨hp, hc, fun s hs => Nat.lt_succ_of_lt (hy s hs), hl⟩, ?_⟩
    show alpha.length ≤ alpha.length + 16 * (row.tiles.length + 1)
    omega
  · cases hrt : row.tiles with
    | nil =>
      have hgoal : generate_strips row row_y lines alpha strips = (alpha, strips) := by
        unfold generate_strips
        rw [if_neg hle, hrt]
      rw [hgoal]
      refine ⟨⟨hp, hc, fun s hs => Nat.lt_succ_of_lt (hy s hs), hl⟩, ?_⟩
      show alpha.length ≤ alpha.length + 16 * ([].length + 1)
      omega
    | cons t0 rest =>
      rw [hrt] at hsort hbound hlen
      set st0 : StripState :=
        { winding_delta := row.winding
          prev_tile := t0
          location_winding := List.replicate 4 row.area_coverage
          accumulated_winding := row.area_coverage
          strip :=
            { x := t0.x, y := row_y, width := 0
              pixel_coverage := row.area_coverage.map covByte
              alpha_idx := alpha.length % 4294967296 }
          alpha := alpha
          strips := strips } with hst0
      have hgoal : generate_strips row row_y lines alpha strips =
          ((stripGo lines row_y ((t0 :: rest) ++ [gateCloser]) st0).alpha,
           (stripGo lines row_y ((t0 :: rest) ++ [gateCloser]) st0).strips) := by
        unfold generate_strips
        rw [if_neg hle, hrt]
      have hmod : alpha.length % 4294967296 = alpha.length :=
        Nat.mod_eq_of_lt (by omega)
      have hres := stripGo_inv lines row_y (t0 :: rest) st0
        (List.chain'_cons.mpr ⟨le_refl t0.x, hsort⟩)
        hbound
        (hbound t0 (by simp))
        (by
          show alpha.length + 16 * (t0 :: rest).length + 16 < 4294967296
          simp only [List.length_cons] at hlen ⊢
          omega)
        (by
          refine ⟨le_refl _, rfl, ?_, ?_, hp, hc, ?_⟩
          · show alpha.length = alpha.length % 4294967296 + (t0.x - t0.x) * 16
            omega
          · exact fun s hs => Or.inl (hy s hs)
          · intro s hs
            show s.alpha_idx + s.width * 16 = alpha.length % 4294967296
            rw [hmod]
            exact hl s hs)
      rw [hgoal]
      have h5 : st0.alpha = alpha := rfl
      rw [h5] at hres
      refine ⟨hres.1, ?_⟩
      show (stripGo lines row_y ((t0 :: rest) ++ [gateCloser]) st0).alpha.length ≤
        alpha.length + 16 * ((t0 :: rest).length + 1)
      have h6 := hres.2
      simp only [List.length_cons] at h6 ⊢
      omega

-- Total number of alpha bytes the strip stage can append for the given rows.
def rowsFlushBudget (rows : List TileRow) : Nat :=
  rows.foldr (fun r n => r.tiles.length + 1 + n) 0

-- The strip stage (row-by-row generate_strips) keeps the emitted strip list
-- ordered and alpha-contiguous.
theorem stripRowsGo_inv (lines : List Line) (rows : List TileRow) (y : Nat)
    (alpha : List Nat) (strips : List Strip)
    (hsort : ∀ r ∈ rows, List.Chain' tileLe r.tiles)
    (hbound : ∀ r ∈ rows, ∀ t ∈ r.tiles, t.x < 65534)
    (hlen : alpha.length + 16 * rowsFlushBudget rows < 4294967296)
    (hinv : RowsInv y alpha strips) :
    List.Pairwise stripOrder (stripRowsGo lines rows y (alpha, strips)).2 ∧
      List.Chain' alphaChain (stripRowsGo lines rows y (alpha, strips)).2 := by
  induction rows generalizing y alpha strips with
  | nil => exact ⟨hinv.1, hinv.2.1⟩
  | cons r rs ih =>
    have hbudget : rowsFlushBudget (r :: rs) = r.tiles.length + 1 + rowsFlushBudget rs := rfl
    rw [hbudget] at hlen
    have hstep := generate_strips_inv r y lines alpha strips (hsort r (by simp))
      (hbound r (by simp)) (by omega) hinv
    have hgo : stripRowsGo lines (r :: rs) y (alpha, strips) =
        stripRowsGo lines rs (y + 1) (generate_strips r y lines alpha strips) := rfl
    rw [hgo]
    have hih := ih (y + 1) (generate_strips r y lines alpha strips).1
      (generate_strips r y lines alpha strips).2
      (fun r2 hr2 => hsort r2 (by simp [hr2]))
      (fun r2 hr2 => hbound r2 (by simp [hr2]))
      (by
        have := hstep.2
        omega)
      hstep.1
    rw [Prod.mk.eta] at hih
    exact hih

/-- C5: for every sequence of tile rows processed in increasing row index, with each row's
tiles sorted ascending by tile x (and tile columns in the u16 range the sentinel logic
assumes), strip generation appends strips in non-decreasing (y, x) order, and within a
single row the strip intervals [x, x+width) are pairwise disjoint and separated by at
least one tile column. -/
theorem C5_strip_ordering (lines : List Line) (rows : List TileRow) (alpha : List Nat)
    (hsort : ∀ r ∈ rows, List.Chain' tileLe r.tiles)
    (hbound : ∀ r ∈ rows, ∀ t ∈ r.tiles, t.x < 65534)
    (hlen : alpha.length + 16 * rowsFlushBudget rows < 4294967296) :
    List.Pairwise stripOrder (stripRows lines rows alpha).2 :=
  (stripRowsGo_inv lines rows 0 alpha [] hsort hbound hlen
    ⟨List.Pairwise.nil, List.chain'_nil, by simp, by simp⟩).1

/-- C4: within one path submission, any two consecutively emitted strips have
alpha_idx values differing by exactly the earlier strip's width·TW·TH = width·16 bytes:
each strip owns exactly width·16 contiguous bytes of the alpha pool. -/
theorem C4_alpha_index_contiguity (lines : List Line) (rows : List TileRow) (alpha : List Nat)
    (hsort : ∀ r ∈ rows, List.Chain' tileLe r.tiles)
    (hbound : ∀ r ∈ rows, ∀ t ∈ r.tiles, t.x < 65534)
    (hlen : alpha.length + 16 * rowsFlushBudget rows < 4294967296) :
    List.Chain' alphaChain (stripRows lines rows alpha).2 :=
  (stripRowsGo_inv lines rows 0 alpha [] hsort hbound hlen
    ⟨List.Pairwise.nil, List.chain'_nil, by simp, by simp⟩).2

-- Concrete inputs shared by the strip-stage witnesses.
def wLine : Line := ⟨⟨0, 0⟩, ⟨2, 9⟩⟩

def wRowA : TileRow := ⟨[⟨1, 0⟩, ⟨2, 0⟩], 0, [0, 0, 0, 0]⟩

def wRowB : TileRow := ⟨[⟨0, 0⟩, ⟨0, 0⟩, ⟨5, 0⟩], 1, [0, 0, 0, 0]⟩

/-- Witness for C5 on a concrete two-row input with sorted tiles. -/
theorem C5_strip_ordering_witness :
    List.Pairwise stripOrder (stripRows [wLine] [wRowA, wRowB] []).2 :=
  C5_strip_ordering [wLine] [wRowA, wRowB] []
    (by
      intro r hr
      fin_cases hr <;>
        simp [wRowA, wRowB, tileLe, List.chain'_cons, List.chain'_singleton])
    (by decide) (by decide)

/-- Witness for C4 on a concrete two-row input with sorted tiles. -/
theorem C4_alpha_index_contiguity_witness :
    List.Chain' alphaChain (stripRows [wLine] [wRowA, wRowB] []).2 :=
  C4_alpha_index_contiguity [wLine] [wRowA, wRowB] []
    (by
      intro r hr
      fin_cases hr <;>
        simp [wRowA, wRowB, tileLe, List.chain'_cons, List.chain'_singleton])
    (by decide) (by decide)

-- ## Widener (src/bintje/src/wide_tile.rs, generate_wide_tile_commands)

-- The between-strip command for one wide tile (the body of the sparse-fill loop;
-- x_start/x_end computed exactly as in the source, the command kind chosen by
-- the full-coverage test on pixel_coverage).
def sparseCmdFor (prev_x sx : Nat) (color : PremulRgba8) (cov : List Nat) (wt : Nat) : Command :=
  let x_start := if wt = prev_x / 32 then prev_x - prev_x / 32 * 32 else 0
  let x_end := if wt = sx / 32 then sx - sx / 32 * 32 else 32
  if cov = [255, 255, 255, 255] then
    .sparseFill ⟨x_start, x_end - x_start, color⟩
  else
    .sparseSample ⟨x_start, x_end - x_start, color, cov⟩

-- Phase 1 of processing one strip: the between-strip sparse fill commands,
-- returned as (wide-tile column, command) pairs. The source loops over the
-- inclusive range prev_x/32 ..= strip.x/32 and breaks at the column count.
def sparseFillPhase (cols prev_x : Nat) (strip : Strip) (color : PremulRgba8) :
    List (Nat × Command) :=
  if strip.pixel_coverage ≠ [0, 0, 0, 0] ∧ prev_x < strip.x then
    ((List.range' (prev_x / 32) (strip.x / 32 + 1 - prev_x / 32)).takeWhile
        (fun wt => wt < cols)).map
      (fun wt => (wt, sparseCmdFor prev_x strip.x color strip.pixel_coverage wt))
  else []

-- Phase 2 of processing one strip: the alpha-mask sample commands, with the
-- running alpha_idx advanced by width·16 per wide tile whether or not a command
-- is emitted. The dead inner branch of the source's duplicated all-zero test is
-- kept as written. The slice alpha_masks[a..a+w·16] is embedded with drop/take.
def samplePhase (cols : Nat) (alpha : List Nat) (strip : Strip) (color : PremulRgba8) :
    List (Nat × Command) :=
  let start := strip.x / 32
  let endw := (strip.x + strip.width) / 32
  (((List.range' start (endw + 1 - start)).takeWhile (fun wt => wt < cols)).foldl
    (fun (st : Nat × List (Nat × Command)) wt =>
      let x_start := if wt = start then strip.x - start * 32 else 0
      let x_end := if wt = endw then strip.x + strip.width - endw * 32 else 32
      let w := x_end - x_start
      let window := (alpha.drop st.1).take (w * 16)
      let acc :=
        if ¬ window.all (fun a => a = 0) then
          if window.all (fun a => a = 0) then
            st.2 ++ [(wt, Command.sparseFill ⟨x_start, w, color⟩)]
          else
            st.2 ++ [(wt, Command.sample ⟨x_start, w, color, st.1⟩)]
        else st.2
      (st.1 + w * 16, acc))
    (strip.alpha_idx, [])).2

-- Append a command to the wide tile at the given row-major index (the source's
-- wide_tiles.get_mut(..).unwrap() followed by push; out-of-range writes cannot
-- occur for well-sized inputs and are no-ops here).
def pushCmd (wts : List (List Command)) (i : Nat) (c : Command) : List (List Command) :=
  wts.set i (wts.getD i [] ++ [c])

-- The strip loop of generate_wide_tile_commands: prev_x threads the previous
-- right edge; a strip with wide_tile_y >= wide_tile_rows breaks out of the loop.
def gwtGo (cols rows : Nat) (alpha : List Nat) (color : PremulRgba8) :
    List Strip → Nat → List (List Command) → List (List Command)
  | [], _, wts => wts
  | s :: rest, prev_x, wts =>
    if rows ≤ s.y then wts
    else
      let wts1 :=
        (sparseFillPhase cols prev_x s color).foldl
          (fun w p => pushCmd w (s.y * cols + p.1) p.2) wts
      let wts2 :=
        (samplePhase cols alpha s color).foldl
          (fun w p => pushCmd w (s.y * cols + p.1) p.2) wts1
      gwtGo cols rows alpha color rest (s.x + s.width) wts2

-- generate_wide_tile_commands (wide_tile.rs). The brush is embedded as the
-- already-premultiplied RGBA8 color it resolves to (color conversion is an
-- external crate concern). A zero pixel width gives cols = 0; the source would
-- panic on the division wide_tiles.len() / 0, while Nat division yields 0 rows
-- and every strip row breaks immediately.
def generate_wide_tile_commands (width : Nat) (wide_tiles : List (List Command))
    (strips : List Strip) (alpha : List Nat) (color : PremulRgba8) : List (List Command) :=
  let cols := (width + 127) / 128
  let rows := wide_tiles.length / cols
  gwtGo cols rows alpha color strips 0 wide_tiles

-- The gap [prev_x, sx) of tile columns overlaps the wide tile wt (whose tile
-- columns are [wt·32, (wt+1)·32)).
def gapOverlapsWideTile (prev_x sx wt : Nat) : Prop :=
  max prev_x (wt * 32) < min sx ((wt + 1) * 32)

instance (prev_x sx wt : Nat) : Decidable (gapOverlapsWideTile prev_x sx wt) :=
  inferInstanceAs (Decidable (max prev_x (wt * 32) < min sx ((wt + 1) * 32)))

-- takeWhile of a strictly-below bound on a unit-step range.
theorem range'_takeWhile_lt (a n c : Nat) :
    (List.range' a n).takeWhile (fun wt => wt < c) = List.range' a (min n (c - a)) := by
  induction n generalizing a with
  | zero => simp
  | succ n ih =>
    rw [List.range'_succ, List.takeWhile_cons]
    by_cases h : a < c
    · have hmin : min (n + 1) (c - a) = min n (c - (a + 1)) + 1 := by omega
      rw [hmin, List.range'_succ]
      simp [h, ih (a + 1)]
    · have hmin : min (n + 1) (c - a) = 0 := by omega
      rw [hmin]
      simp [h]

def wColor : PremulRgba8 := ⟨255, 0, 0, 255⟩

/-- Counterexample to C6 as stated: with two wide-tile columns, a first strip at
tile column 32 with full pre-strip coverage makes the widener emit a (zero-width)
between-strip command to wide tile 1, although the gap [0, 32) does not overlap
wide tile 1. -/
theorem C6_counterexample :
    (1, Command.sparseFill ⟨0, 0, wColor⟩) ∈
        sparseFillPhase 2 0 ⟨32, 0, 1, [255, 255, 255, 255], 0⟩ wColor ∧
      ¬ gapOverlapsWideTile 0 32 1 := by decide

/-- C6 (amended): when the pre-strip coverage is non-zero and there is a gap
prev_right < strip.x, the widener emits exactly one between-strip command per wide tile
with index in [prev_right/32, strip.x/32] clamped to the column count — a set that, when
strip.x is a multiple of 32, also contains the wide tile right of the gap, which receives
a zero-width command; each command is a SparseFill when pixel_coverage = [255; TH] and
otherwise a SparseSample carrying pixel_coverage as the per-sub-row alpha column; and no
between-strip command is emitted when pixel_coverage is all zero or there is no gap. -/
theorem C6_between_strip_commands (cols prev_x : Nat) (s : Strip) (c : PremulRgba8) :
    (s.pixel_coverage = [0, 0, 0, 0] ∨ ¬ prev_x < s.x →
      sparseFillPhase cols prev_x s c = []) ∧
    (s.pixel_coverage ≠ [0, 0, 0, 0] → prev_x < s.x →
      ((sparseFillPhase cols prev_x s c).map Prod.fst =
          List.range' (prev_x / 32) (min (s.x / 32 + 1 - prev_x / 32) (cols - prev_x / 32)) ∧
        ((sparseFillPhase cols prev_x s c).map Prod.fst).Nodup ∧
        ∀ p ∈ sparseFillPhase cols prev_x s c,
          (s.pixel_coverage = [255, 255, 255, 255] →
            ∃ sf : SparseFill, p.2 = Command.sparseFill sf ∧ sf.color = c) ∧
          (s.pixel_coverage ≠ [255, 255, 255, 255] →
            ∃ ssp : SparseSample, p.2 = Command.sparseSample ssp ∧
              ssp.color = c ∧ ssp.alpha_mask = s.pixel_coverage))) := by
  constructor
  · intro h
    unfold sparseFillPhase
    rw [if_neg]
    tauto
  · intro hcov hgap
    unfold sparseFillPhase
    rw [if_pos ⟨hcov, hgap⟩, range'_takeWhile_lt]
    have hid : (Prod.fst ∘ fun wt : Nat =>
        (wt, sparseCmdFor prev_x s.x c s.pixel_coverage wt)) = id := rfl
    refine ⟨?_, ?_, ?_⟩
    · rw [List.map_map, hid, List.map_id]
    · rw [List.map_map, hid, List.map_id]
      exact List.nodup_range' _ _
    · intro p hp
      rcases List.mem_map.mp hp with ⟨wt, hwt, rfl⟩
      constructor
      · intro hfull
        exact ⟨⟨(if wt = prev_x / 32 then prev_x - prev_x / 32 * 32 else 0),
          (if wt = s.x / 32 then s.x - s.x / 32 * 32 else 32) -
            (if wt = prev_x / 32 then prev_x - prev_x / 32 * 32 else 0), c⟩,
          by simp [sparseCmdFor, hfull], rfl⟩
      · intro hnf
        exact ⟨⟨(if wt = prev_x / 32 then prev_x - prev_x / 32 * 32 else 0),
          (if wt = s.x / 32 then s.x - s.x / 32 * 32 else 32) -
            (if wt = prev_x / 32 then prev_x - prev_x / 32 * 32 else 0), c, s.pixel_coverage⟩,
          by simp [sparseCmdFor, hnf], rfl, rfl⟩

def wStripZero : Strip := ⟨2, 0, 1, [0, 0, 0, 0], 0⟩

def wStripFull : Strip := ⟨32, 0, 1, [255, 255, 255, 255], 0⟩

/-- Witness for the amended C6: the all-zero-coverage strip emits nothing, and the
full-coverage strip at column 32 emits one command per wide tile in the clamped range. -/
theorem C6_between_strip_commands_witness :
    sparseFillPhase 2 0 wStripZero wColor = [] ∧
      (sparseFillPhase 2 0 wStripFull wColor).map Prod.fst =
        List.range' (0 / 32) (min (wStripFull.x / 32 + 1 - 0 / 32) (2 - 0 / 32)) :=
  ⟨(C6_between_strip_commands 2 0 wStripZero wColor).1 (Or.inl rfl),
   ((C6_between_strip_commands 2 0 wStripFull wColor).2 (by decide) (by decide)).1⟩

end Bintje

open Bintje

-- ## Scene context (src/bintje/src/lib.rs, struct Bintje)

-- kurbo::Affine, as its six f64 coefficients (idealized as rationals); the
-- composition is kurbo's affine multiplication.
structure Affine where
  c0 : ℚ
  c1 : ℚ
  c2 : ℚ
  c3 : ℚ
  c4 : ℚ
  c5 : ℚ
deriving DecidableEq

def Affine.identity : Affine := ⟨1, 0, 0, 1, 0, 0⟩

def affineMul (a b : Affine) : Affine :=
  ⟨a.c0 * b.c0 + a.c2 * b.c1,
   a.c1 * b.c0 + a.c3 * b.c1,
   a.c0 * b.c2 + a.c2 * b.c3,
   a.c1 * b.c2 + a.c3 * b.c3,
   a.c0 * b.c4 + a.c2 * b.c5 + a.c4,
   a.c1 * b.c4 + a.c3 * b.c5 + a.c5⟩

structure Transform where
  transform : Affine
  scale : ℚ
deriving DecidableEq

-- The render context. ClipState is an empty placeholder struct in the source,
-- embedded as Unit; the std::time diagnostic counters are not modeled.
structure Bintje where
  width : Nat
  height : Nat
  clip_stack : List Unit
  transform_stack : List Transform
  current_transform : Affine
  current_scale : ℚ
  wide_tiles : List (List Command)
  alpha_masks : List Nat
  lines : List Line
  tile_rows : List TileRow
  strips : List Strip
deriving DecidableEq

-- Bintje::clear (lib.rs): clears every wide tile's command list, clears the
-- transform stack and resets the current transform and scale. No other field is
-- touched; in particular the alpha-mask pool is left as is.
def Bintje.clear (b : Bintje) : Bintje :=
  { b with
    wide_tiles := b.wide_tiles.map (fun _ => ([] : List Command))
    transform_stack := []
    current_transform := Affine.identity
    current_scale := 1 }

-- Bintje::push_transform (lib.rs): saves the current transform and scale on the
-- stack, composes the new transform and recomputes the uniform scale from the
-- diagonal coefficients.
def Bintje.push_transform (b : Bintje) (transform : Affine) : Bintje :=
  let b1 :=
    { b with
      transform_stack := b.transform_stack ++ [Transform.mk b.current_transform b.current_scale] }
  let ct := affineMul b1.current_transform transform
  { b1 with
    current_transform := ct
    current_scale := max |ct.c0| |ct.c3| }

-- Bintje::pop_transform (lib.rs): restores the saved transform and scale;
-- popping an empty stack is a no-op.
def Bintje.pop_transform (b : Bintje) : Bintje :=
  match b.transform_stack.getLast? with
  | none => b
  | some prev =>
    { b with
      transform_stack := b.transform_stack.dropLast
      current_transform := prev.transform
      current_scale := prev.scale }

/-- C9: push_transform(A) followed immediately by pop_transform() restores the whole
scene state — in particular current_transform and current_scale — exactly, and popping
with an empty transform stack leaves the state unchanged. -/
theorem C9_transform_stack_balance :
    (∀ (b : Bintje) (A : Affine), (b.push_transform A).pop_transform = b) ∧
    (∀ b : Bintje, b.transform_stack = [] → b.pop_transform = b) := by
  constructor
  · intro b A
    cases b
    simp [Bintje.push_transform, Bintje.pop_transform, List.getLast?_concat,
      List.dropLast_concat]
  · intro b h
    unfold Bintje.pop_transform
    rw [h]
    rfl

def wScene : Bintje := ⟨8, 8, [], [], Affine.identity, 1, [[]], [], [], [], []⟩

/-- Witness for C9 at a concrete scene and transform. -/
theorem C9_transform_stack_balance_witness :
    (wScene.push_transform ⟨2, 0, 0, 2, 1, 1⟩).pop_transform = wScene ∧
      wScene.pop_transform = wScene :=
  ⟨C9_transform_stack_balance.1 wScene ⟨2, 0, 0, 2, 1, 1⟩,
   C9_transform_stack_balance.2 wScene rfl⟩

def wSceneUsed : Bintje :=
  ⟨8, 8, [], [], Affine.identity, 1, [[Command.sparseFill ⟨0, 1, wColor⟩]], [7], [], [], []⟩

/-- Counterexample to C2 as stated: clear() does not reset the alpha-mask pool; on a
scene whose pool holds one byte, the pool is unchanged (and in particular non-empty)
after clear(). -/
theorem C2_counterexample : ¬ (wSceneUsed.clear.alpha_masks = []) := by decide

/-- C2 (amended): after clear(), every wide tile's command list is empty and the
transform stack is empty with the current transform restored to identity and the current
scale to 1 — but the alpha-mask pool is not reset: clear() leaves it untouched, so alpha
masks accumulate across clear() while wide-tile commands accumulate only until clear(). -/
theorem C2_clear_resets_commands_not_alpha (b : Bintje) :
    (∀ wt ∈ b.clear.wide_tiles, wt = ([] : List Command)) ∧
    b.clear.transform_stack = [] ∧
    b.clear.current_transform = Affine.identity ∧
    b.clear.current_scale = 1 ∧
    b.clear.alpha_masks = b.alpha_masks := by
  refine ⟨?_, rfl, rfl, rfl, rfl⟩
  intro wt hwt
  rcases List.mem_map.mp hwt with ⟨a, ha, h⟩
  exact h.symm

-- ## Tiler, modelled from the spec
--
-- The tile.rs that the rest of this crate compiles against (defining TileRow and
-- the row-accounting generate_tiles(&mut tile_rows, width, &lines)) is not among
-- the sources; the file named tile.rs in the tree is an incompatible stale
-- revision whose Tile type and signature nothing else in the crate uses. The
-- definitions below are therefore modelled from the spec, section 4.3.

-- Sign of a rational, as used for the spec's sign() comparisons.
def qsign (q : ℚ) : Int := if 0 < q then 1 else if q < 0 then -1 else 0

-- Modelled from the spec: orientation sign s = sign(p0.y − p1.y), positive when
-- the line moves upward (y grows downward), zero for horizontal lines.
def lineSign (line : Line) : Int :=
  if line.p1.y < line.p0.y then 1 else if line.p0.y < line.p1.y then -1 else 0

-- Modelled from the spec: the line's y-range clipped to tile row r, in tile
-- units (pixel y divided by TH = 4); the row spans tile-unit y in [r, r+1].
def rowClipTop (line : Line) (r : Nat) : ℚ :=
  max (min (line.p0.y / 4) (line.p1.y / 4)) (r : ℚ)

def rowClipBottom (line : Line) (r : Nat) : ℚ :=
  min (max (line.p0.y / 4) (line.p1.y / 4)) ((r : ℚ) + 1)

-- Modelled from the spec: a y-interval crosses the top edge of row r when the
-- signs of (y_top − row_top) and (y_bottom − row_top) differ.
def crossesTopEdge (y_top y_bot : ℚ) (r : Nat) : Prop :=
  qsign (y_top - (r : ℚ)) ≠ qsign (y_bot - (r : ℚ))

instance (y_top y_bot : ℚ) (r : Nat) : Decidable (crossesTopEdge y_top y_bot r) :=
  inferInstanceAs (Decidable (qsign (y_top - (r : ℚ)) ≠ qsign (y_bot - (r : ℚ))))

-- Modelled from the spec: the vertical extent of the y-interval [y_top, y_bot]
-- inside sub-row i of row r (sub-row i spans [r + i/4, r + (i+1)/4] tile units).
def subRowExtent (y_top y_bot : ℚ) (r i : Nat) : ℚ :=
  max 0 (min y_bot ((r : ℚ) + ((i : ℚ) + 1) / 4) - max y_top ((r : ℚ) + (i : ℚ) / 4))

-- Modelled from the spec: the left-of-viewport coverage contribution of the
-- y-interval to sub-row i: TH · s · (vertical extent inside that sub-row).
def leftCoverage (s : Int) (y_top y_bot : ℚ) (r i : Nat) : ℚ :=
  4 * (s : ℚ) * subRowExtent y_top y_bot r i

-- Modelled from the spec: the x-coordinate (tile units) of the line at the given
-- tile-unit y, by intersecting its slope; for a vertical line the slope factor
-- is zero in ℚ and the x is the shared endpoint x, with no slope inversion.
def tileXAt (line : Line) (yq : ℚ) : ℚ :=
  let x0 := line.p0.x / 4
  let y0 := line.p0.y / 4
  let x1 := line.p1.x / 4
  let y1 := line.p1.y / 4
  x0 + (yq - y0) * ((x1 - x0) / (y1 - y0))

-- Modelled from the spec: the y-subinterval of [y_top, y_bot] on which the line
-- (running from (xa, y_top) to (xb, y_bot) in tile units) lies at x ≤ 0, used
-- for the portion-left-of-viewport accounting of case 2.
def leftPortion (y_top y_bot xa xb : ℚ) : ℚ × ℚ :=
  if xa ≤ 0 ∧ xb ≤ 0 then (y_top, y_bot)
  else if 0 < xa ∧ 0 < xb then (y_top, y_top)
  else
    let y_cross := y_top + (0 - xa) * ((y_bot - y_top) / (xb - xa))
    if xa ≤ 0 then (y_top, y_cross) else (y_cross, y_bot)

-- Modelled from the spec, section 4.3: process one line against one tile row.
-- Case 1 (geometry entirely left of the viewport, max(x0,x1) < 0): no tile
-- entries; update the row's winding when the line crosses the row's top edge and
-- add the left coverage contribution to area_coverage. Case 2: emit one tile per
-- tile column in [floor(x_min), min(floor(x_max), width−1)] (columns clamped to
-- the u16 range at 0), and account the portion left of x = 0 with the same
-- formulas as case 1.
def tileLineRow (width_in_tiles : Nat) (line : Line) (line_idx : Nat) (r : Nat)
    (row : TileRow) : TileRow :=
  if max (line.p0.x / 4) (line.p1.x / 4) < 0 then
    { row with
      winding := row.winding +
        (if crossesTopEdge (rowClipTop line r) (rowClipBottom line r) r
          then lineSign line else 0)
      area_coverage := (List.range 4).map
        (fun i => row.area_coverage.getD i 0 +
          leftCoverage (lineSign line) (rowClipTop line r) (rowClipBottom line r) r i) }
  else
    let y_top := rowClipTop line r
    let y_bot := rowClipBottom line r
    let xa := tileXAt line y_top
    let xb := tileXAt line y_bot
    let x_min := min xa xb
    let x_max := max xa xb
    let lo : Int := ⌊x_min⌋
    let hi : Int := min ⌊x_max⌋ ((width_in_tiles : Int) - 1)
    let new_tiles :=
      (List.range (hi + 1 - lo).toNat).map
        (fun k => Tile.mk (lo + (k : Int)).toNat line_idx)
    let yl := leftPortion y_top y_bot xa xb
    { row with
      tiles := row.tiles ++ new_tiles
      winding := row.winding +
        (if crossesTopEdge yl.1 yl.2 r then lineSign line else 0)
      area_coverage := (List.range 4).map
        (fun i => row.area_coverage.getD i 0 +
          leftCoverage (lineSign line) yl.1 yl.2 r i) }

-- Modelled from the spec: whether the line's y-range (tile units) meets row r.
def spansRow (line : Line) (r : Nat) : Prop :=
  min (line.p0.y / 4) (line.p1.y / 4) ≤ (r : ℚ) + 1 ∧
    (r : ℚ) ≤ max (line.p0.y / 4) (line.p1.y / 4)

instance (line : Line) (r : Nat) : Decidable (spansRow line r) :=
  inferInstanceAs (Decidable (_ ∧ _))

-- Modelled from the spec: bin one line into every row it spans.
def tileLineIntoRows (width_in_tiles : Nat) (line : Line) (line_idx : Nat)
    (rows : List TileRow) : List TileRow :=
  rows.mapIdx (fun r row =>
    if spansRow line r then tileLineRow width_in_tiles line line_idx r row else row)

def tileAllGo (width_in_tiles : Nat) : List Line → Nat → List TileRow → List TileRow
  | [], _, rows => rows
  | l :: ls, idx, rows =>
    tileAllGo width_in_tiles ls (idx + 1) (tileLineIntoRows width_in_tiles l idx rows)

-- Modelled from the spec, section 7: tile entries reference lines through u32
-- indices; the conversion of the path's line count to u32 fails with an explicit
-- overflow indication instead of truncating.
def lineCountToU32 (n : Nat) : Option Nat :=
  if n ≤ 4294967295 then some n else none

-- Modelled from the spec: the tiler over all lines; it fails when the line count
-- does not fit in u32, and otherwise bins every line into the rows it spans.
-- (The per-row sort that follows tiling in the pipeline is a separate step.)
def generate_tiles (width_in_tiles : Nat) (rows : List TileRow) (lines : List Line) :
    Option (List TileRow) :=
  match lineCountToU32 lines.length with
  | none => none
  | some _ => some (tileAllGo width_in_tiles lines 0 rows)

/-- C1: for every line whose x-extent lies entirely left of the viewport
(max(x0,x1) < 0), the tiler emits no tile entries for the row; it increments the row's
winding by the orientation sign s exactly when the line crosses the row's top edge, and
adds the line's left-of-viewport coverage contribution to the row's area_coverage.
(spec-modelled: the TileRow-based tiler is absent from the sources.) -/
theorem C1_left_of_viewport_accounting (width_in_tiles : Nat) (line : Line)
    (line_idx r : Nat) (row : TileRow)
    (hleft : max line.p0.x line.p1.x < 0) :
    (tileLineRow width_in_tiles line line_idx r row).tiles = row.tiles ∧
    (tileLineRow width_in_tiles line line_idx r row).winding =
      row.winding +
        (if crossesTopEdge (rowClipTop line r) (rowClipBottom line r) r
          then lineSign line else 0) ∧
    (tileLineRow width_in_tiles line line_idx r row).area_coverage =
      (List.range 4).map
        (fun i => row.area_coverage.getD i 0 +
          leftCoverage (lineSign line) (rowClipTop line r) (rowClipBottom line r) r i) := by
  have hcond : max (line.p0.x / 4) (line.p1.x / 4) < 0 := by
    rw [max_lt_iff] at hleft ⊢
    exact ⟨div_neg_of_neg_of_pos hleft.1 (by norm_num),
      div_neg_of_neg_of_pos hleft.2 (by norm_num)⟩
  unfold tileLineRow
  rw [if_pos hcond]
  exact ⟨rfl, rfl, rfl⟩

def wLineLeft : Line := ⟨⟨-8, 0⟩, ⟨-4, 9⟩⟩

/-- Witness for C1 at a concrete line entirely left of the viewport. -/
theorem C1_left_of_viewport_accounting_witness :
    (tileLineRow 16 wLineLeft 0 0 wRowA).tiles = wRowA.tiles ∧
    (tileLineRow 16 wLineLeft 0 0 wRowA).winding =
      wRowA.winding +
        (if crossesTopEdge (rowClipTop wLineLeft 0) (rowClipBottom wLineLeft 0) 0
          then lineSign wLineLeft else 0) ∧
    (tileLineRow 16 wLineLeft 0 0 wRowA).area_coverage =
      (List.range 4).map
        (fun i => wRowA.area_coverage.getD i 0 +
          leftCoverage (lineSign wLineLeft) (rowClipTop wLineLeft 0)
            (rowClipBottom wLineLeft 0) 0 i) :=
  C1_left_of_viewport_accounting 16 wLineLeft 0 0 wRowA (by norm_num [wLineLeft])

/-- C3: when the number of lines produced for a single path exceeds what u32 can
represent, the pipeline detects the overflow at the conversion point and fails with an
explicit overflow indication rather than silently truncating; counts that fit convert
losslessly. (spec-modelled: the tiler performing the conversion is absent from the
sources.) -/
theorem C3_line_count_overflow :
    (∀ (w : Nat) (rows : List TileRow) (lines : List Line),
      4294967295 < lines.length → generate_tiles w rows lines = none) ∧
    (∀ n : Nat, 4294967295 < n → lineCountToU32 n = none) ∧
    (∀ n : Nat, n ≤ 4294967295 → lineCountToU32 n = some n) := by
  refine ⟨?_, ?_, ?_⟩
  · intro w rows lines h
    unfold generate_tiles lineCountToU32
    rw [if_neg (by omega)]
  · intro n h
    unfold lineCountToU32
    rw [if_neg (by omega)]
  · intro n h
    unfold lineCountToU32
    rw [if_pos h]

/-- Witness for C3: a path of 2^32 lines is rejected; a count of 7 converts exactly. -/
theorem C3_line_count_overflow_witness :
    generate_tiles 16 [] (List.replicate 4294967296 wLineLeft) = none ∧
      lineCountToU32 4294967296 = none ∧ lineCountToU32 7 = some 7 :=
  ⟨C3_line_count_overflow.1 16 [] (List.replicate 4294967296 wLineLeft)
    (by rw [List.length_replicate]; norm_num),
   C3_line_count_overflow.2.1 4294967296 (by norm_num),
   C3_line_count_overflow.2.2 7 (by norm_num)⟩
